import Mathlib

/-!
Verification of the `DrCovRuntime` component
(`src/libafl_frida/src/drcov_rt.rs`) against its natural-language
specification.

The Rust code is shallowly embedded: the runtime struct becomes a Lean
structure, the `HashMap` of stalked addresses becomes an association list
with most-recent-first lookup (the observable behaviour of
`HashMap::insert` / `HashMap::get`), the filesystem is a list of existing
file names, and the fallible `DrCovWriter::write` call is an explicit
`writeOk` outcome supplied by the environment.  `post_exec` returns, next
to the `Result` and the updated runtime, the `WriteEvent` describing the
file it attempted to write (path, module table, block list).
-/

namespace DrCovRt

/-- Word size of the fingerprint: the hash is a `u64`. -/
def U64 : Nat := 2 ^ 64

/-- Odd 64-bit multiplier constant for the hash model. -/
def MULTIPLE : Nat := 6364136223846793005

/-- Multiply-fold of two 64-bit words: the low and high halves of the
128-bit product, xored, reduced to 64 bits. -/
def foldedMultiply (s m : Nat) : Nat :=
  let r := s * m
  ((r % U64) ^^^ (r / U64)) % U64

/-- Modelled from the spec: the fixed-seed, order-sensitive 64-bit content
hash used by `post_exec` is produced by the external `ahash` crate
(`RandomState::with_seeds(0, 0, 0, 0).build_hasher()`), whose source is not
part of this repository.  This model keeps the spec-relevant structure: a
64-bit state derived only from the four seed words, folded over the input
bytes in order. -/
def ahashWithSeeds (k0 k1 k2 k3 : Nat) (bytes : List Nat) : Nat :=
  bytes.foldl (fun acc b => foldedMultiply ((acc ^^^ b % 256) % U64) MULTIPLE)
    (foldedMultiply ((k0 ^^^ k2) % U64) ((k1 ^^^ k3 ^^^ MULTIPLE) % U64))

/-- The fingerprint computed in `post_exec`: the hash of the input's raw
bytes with the fixed seeds `(0, 0, 0, 0)` (`drcov_rt.rs` lines 53–56). -/
def fingerprint (bytes : List Nat) : Nat :=
  ahashWithSeeds 0 0 0 0 bytes

/-- A basic block recorded for the current execution (the
`libafl_targets::drcov::DrCovBasicBlock` payload: start and end address). -/
structure DrCovBasicBlock where
  start : Nat
  stop : Nat
deriving DecidableEq

/-- One entry of the module range map `RangeMap<usize, (u16, String)>`:
an address interval together with the module index and path. -/
structure ModuleRangeEntry where
  start : Nat
  stop : Nat
  index : Nat
  path : String
deriving DecidableEq

/-- The `DrCovRuntime` struct (`drcov_rt.rs` lines 23–30). -/
structure DrCovRuntime where
  drcov_basic_blocks : List DrCovBasicBlock
  ranges : List ModuleRangeEntry
  stalked_addresses : List (Nat × Nat)
  coverage_directory : String
deriving DecidableEq

/-- `Default::default()` for `DrCovRuntime`: empty buffer, empty ranges,
empty map, directory `./coverage`. -/
def DrCovRuntime.default : DrCovRuntime :=
  ⟨[], [], [], "./coverage"⟩

/-- `DrCovRuntime::new()`. -/
def DrCovRuntime.new : DrCovRuntime :=
  DrCovRuntime.default

/-- `DrCovRuntime::with_path(path)`. -/
def DrCovRuntime.with_path (p : String) : DrCovRuntime :=
  { DrCovRuntime.default with coverage_directory := p }

/-- `add_stalked_address(stalked, real)`: `HashMap::insert`, modelled as a
most-recent-first association list (lookup returns the newest binding, so
a later insert for the same key shadows the earlier one, exactly the
observable behaviour of `insert`). -/
def add_stalked_address (rt : DrCovRuntime) (stalked real : Nat) : DrCovRuntime :=
  { rt with stalked_addresses := (stalked, real) :: rt.stalked_addresses }

/-- `real_address_for_stalked(stalked)`:
`self.stalked_addresses.get(&stalked).map_or(stalked, |addr| *addr)`. -/
def real_address_for_stalked (rt : DrCovRuntime) (stalked : Nat) : Nat :=
  (rt.stalked_addresses.lookup stalked).getD stalked

/-- `init`: replaces the ranges with a clone of the supplied map (the
directory creation side effect is outside the state modelled here). -/
def init (rt : DrCovRuntime) (ranges : List ModuleRangeEntry) : DrCovRuntime :=
  { rt with ranges := ranges }

/-- `pre_exec`: does nothing and returns `Ok(())`. -/
def pre_exec (rt : DrCovRuntime) (_input : List Nat) : Except String Unit × DrCovRuntime :=
  (Except.ok (), rt)

/-- Decimal digits of `n`, least significant first, with explicit fuel so
the kernel can evaluate it (`decDigitsAux n n` computes `Nat.digits 10 n`). -/
def decDigitsAux : Nat → Nat → List Nat
  | 0, _ => []
  | fuel + 1, n => if n = 0 then [] else n % 10 :: decDigitsAux fuel (n / 10)

/-- Decimal digits of `n`, least significant first. -/
def decDigits (n : Nat) : List Nat :=
  decDigitsAux n n

/-- Decimal rendering of a natural number, as Rust's `format!` of a
`usize` produces it. -/
def natDecimal (n : Nat) : String :=
  if n = 0 then "0" else ⟨((decDigits n).map Nat.digitChar).reverse⟩

/-- The sixteen hex digits of `n`, least significant first. -/
def hexDigitsLE : Nat → Nat → List Nat
  | 0, _ => []
  | w + 1, n => n % 16 :: hexDigitsLE w (n / 16)

/-- Rust's `format!` with the `016x` spec on a `u64`: sixteen lowercase,
zero-padded hexadecimal digits, most significant first. -/
def toHex16 (n : Nat) : String :=
  ⟨((hexDigitsLE 16 n).map Nat.digitChar).reverse⟩

/-- The first candidate path `coverage_directory.join(<hex>.drcov)`. -/
def baseName (dir hex : String) : String :=
  dir ++ "/" ++ hex ++ ".drcov"

/-- The `i`-th probed path, `set_file_name(<hex>_<i>.drcov)`. -/
def suffixName (dir hex : String) (i : Nat) : String :=
  dir ++ "/" ++ hex ++ "_" ++ natDecimal i ++ ".drcov"

/-- The body of the `while filename.exists()` loop, with explicit fuel
(the Rust loop is unbounded; `chooseFilename` supplies enough fuel for it
to terminate whenever the directory holds finitely many files). -/
def probeLoop (existing : List String) (dir hex : String) : Nat → Nat → Option String
  | 0, _ => none
  | fuel + 1, i =>
    let f := suffixName dir hex i
    if f ∈ existing then probeLoop existing dir hex fuel (i + 1) else some f

/-- The filename selection of `post_exec` (`drcov_rt.rs` lines 57–62):
start from `<hex>.drcov`; while the current name exists, move on to
`<hex>_0.drcov`, `<hex>_1.drcov`, …. -/
def chooseFilename (existing : List String) (dir hex : String) : Option String :=
  if baseName dir hex ∈ existing then
    probeLoop existing dir hex (existing.length + 1) 0
  else some (baseName dir hex)

/-- The file write attempted by `post_exec`:
`DrCovWriter::new(&self.ranges).write(filename, &self.drcov_basic_blocks)`.
The writer serializes the module table and the block list it is handed. -/
structure WriteEvent where
  path : String
  modules : List ModuleRangeEntry
  blocks : List DrCovBasicBlock
deriving DecidableEq

/-- `post_exec` (`drcov_rt.rs` lines 52–67): fingerprint the input bytes,
pick a fresh filename, attempt the write (`writeOk` is the outcome of the
underlying I/O), and — only if the write succeeded, because the `?`
operator returns early on error — clear the block buffer. -/
def post_exec (rt : DrCovRuntime) (input : List Nat) (existing : List String)
    (writeOk : Bool) : Except String Unit × DrCovRuntime × WriteEvent :=
  let hash := fingerprint input
  let hex := toHex16 hash
  let filename := (chooseFilename existing rt.coverage_directory hex).getD
    (baseName rt.coverage_directory hex)
  let ev : WriteEvent := ⟨filename, rt.ranges, rt.drcov_basic_blocks⟩
  if writeOk then
    (Except.ok (), { rt with drcov_basic_blocks := [] }, ev)
  else
    (Except.error "trace file write failed", rt, ev)

/-- A sequence of `add_stalked_address` calls applied in order. -/
def runAdds (rt : DrCovRuntime) (ops : List (Nat × Nat)) : DrCovRuntime :=
  ops.foldl (fun r p => add_stalked_address r p.1 p.2) rt

lemma runAdds_stalked (ops : List (Nat × Nat)) (rt : DrCovRuntime) :
    (runAdds rt ops).stalked_addresses = ops.reverse ++ rt.stalked_addresses := by
  induction ops generalizing rt with
  | nil => simp [runAdds]
  | cons p ops ih =>
    have h1 : runAdds rt (p :: ops) = runAdds (add_stalked_address rt p.1 p.2) ops := by
      simp [runAdds]
    rw [h1, ih]
    simp [add_stalked_address]

lemma lookup_eq_none_of_not_mem (l : List (Nat × Nat)) (a : Nat)
    (h : ∀ r, (a, r) ∉ l) : l.lookup a = none := by
  induction l with
  | nil => rfl
  | cons p l ih =>
    have hp : (a == p.1) = false := by
      refine beq_eq_false_iff_ne.mpr ?hne
      intro heq
      exact h p.2 (by simp [heq])
    simp only [List.lookup, hp]
    exact ih fun r hr => h r (List.mem_cons_of_mem _ hr)

lemma foldedMultiply_lt (s m : Nat) : foldedMultiply s m < U64 := by
  have hpos : 0 < U64 := by norm_num [U64]
  exact Nat.mod_lt _ hpos

lemma fingerprint_lt (bytes : List Nat) : fingerprint bytes < U64 := by
  have hstep : ∀ (l : List Nat) (acc : Nat), acc < U64 →
      l.foldl (fun acc b => foldedMultiply ((acc ^^^ b % 256) % U64) MULTIPLE) acc < U64 := by
    intro l
    induction l with
    | nil => intro acc h; simpa using h
    | cons b l ih =>
      intro acc _
      simp only [List.foldl_cons]
      exact ih _ (foldedMultiply_lt _ _)
  exact hstep bytes _ (foldedMultiply_lt _ _)

/-- C3: an address that was never passed as the first argument of
`add_stalked_address` on a runtime that started with an empty
stalked-address map translates to itself; the lookup is total. -/
theorem real_address_for_stalked_id (rt0 : DrCovRuntime) (ops : List (Nat × Nat)) (a : Nat)
    (h0 : rt0.stalked_addresses = []) (h : ∀ r, (a, r) ∉ ops) :
    real_address_for_stalked (runAdds rt0 ops) a = a := by
  unfold real_address_for_stalked
  rw [runAdds_stalked, h0, List.append_nil]
  rw [lookup_eq_none_of_not_mem]
  · rfl
  · intro r hr
    exact h r (List.mem_reverse.mp hr)

/-- Witness for C3 on a concrete runtime and call sequence. -/
theorem real_address_for_stalked_id_witness :
    real_address_for_stalked (runAdds DrCovRuntime.new [(1, 2), (5, 6)]) 3 = 3 :=
  real_address_for_stalked_id DrCovRuntime.new [(1, 2), (5, 6)] 3 rfl
    (fun r hr => by simp at hr)

/-- C5: a second `add_stalked_address` for the same key overwrites the
first; the lookup afterwards returns the newer value. -/
theorem add_stalked_address_overwrite (rt : DrCovRuntime) (s r1 r2 : Nat) :
    real_address_for_stalked (add_stalked_address (add_stalked_address rt s r1) s r2) s = r2 := by
  simp [add_stalked_address, real_address_for_stalked, List.lookup]

/-- C4: the fingerprint is a deterministic pure function of the raw input
bytes alone (fixed seeds, no per-run state), produces a 64-bit value, and
is order-sensitive: permuting the bytes can change the hash. -/
theorem fingerprint_deterministic_order_sensitive :
    (∀ b1 b2 : List Nat, b1 = b2 → fingerprint b1 = fingerprint b2) ∧
    (∀ b : List Nat, fingerprint b < U64) ∧
    (∃ p q : List Nat, p.Perm q ∧ fingerprint p ≠ fingerprint q) := by
  refine ⟨fun b1 b2 h => by rw [h], fingerprint_lt, ⟨[1, 2], [2, 1], by decide, by decide⟩⟩

/-- Witness for C4 at a concrete byte sequence. -/
theorem fingerprint_deterministic_order_sensitive_witness :
    fingerprint [3, 7] = fingerprint [3, 7] ∧ fingerprint [3, 7] < U64 :=
  ⟨fingerprint_deterministic_order_sensitive.1 [3, 7] [3, 7] rfl,
    fingerprint_deterministic_order_sensitive.2.1 [3, 7]⟩

/-- C6: when the underlying trace-file write fails, `post_exec` returns
that failure as an error value to the caller (the `?` operator propagates
it; nothing panics or swallows it). -/
theorem post_exec_propagates_write_error (rt : DrCovRuntime) (input : List Nat)
    (existing : List String) :
    ∃ e, (post_exec rt input existing false).1 = Except.error e :=
  ⟨"trace file write failed", rfl⟩

/-- C7: with an empty trace buffer the write is still performed: the
written file holds the module table from the registry and an empty block
list. -/
theorem post_exec_writes_empty_trace (ranges : List ModuleRangeEntry)
    (sa : List (Nat × Nat)) (dir : String) (input : List Nat)
    (existing : List String) (ok : Bool) :
    ((post_exec ⟨[], ranges, sa, dir⟩ input existing ok).2.2).blocks = [] ∧
    ((post_exec ⟨[], ranges, sa, dir⟩ input existing ok).2.2).modules = ranges := by
  cases ok <;> simp [post_exec]

/-- C8: `pre_exec` always returns `Ok(())` and leaves the whole runtime
state (all four fields) unchanged. -/
theorem pre_exec_ok_and_frame (rt : DrCovRuntime) (input : List Nat) :
    (pre_exec rt input).1 = Except.ok () ∧ (pre_exec rt input).2 = rt :=
  ⟨rfl, rfl⟩

/-- C10: whether the write succeeds or fails, `post_exec` never changes
the module range registry, the stalked-address map, or the coverage
directory; only the trace buffer may change. -/
theorem post_exec_frame (rt : DrCovRuntime) (input : List Nat) (existing : List String)
    (ok : Bool) :
    ((post_exec rt input existing ok).2.1).ranges = rt.ranges ∧
    ((post_exec rt input existing ok).2.1).stalked_addresses = rt.stalked_addresses ∧
    ((post_exec rt input existing ok).2.1).coverage_directory = rt.coverage_directory := by
  cases ok <;> simp [post_exec]

/-- C1 is false on the code: when the write fails, the `?` operator
returns before `drcov_basic_blocks.clear()` runs, so the buffer is not
empty after `post_exec`.  Concrete counterexample: one recorded block, a
failing write. -/
theorem post_exec_buffer_not_cleared_on_failure :
    ((post_exec { DrCovRuntime.new with drcov_basic_blocks := [⟨0, 1⟩] }
        [] [] false).2.1).drcov_basic_blocks ≠ [] := by
  decide

/-- C1 amended: after a successful `post_exec` the trace buffer is empty;
after a failing write `post_exec` returns early and the whole runtime —
the buffer included — is unchanged. -/
theorem post_exec_buffer_cleared_on_success (rt : DrCovRuntime) (input : List Nat)
    (existing : List String) :
    ((post_exec rt input existing true).2.1).drcov_basic_blocks = [] ∧
    (post_exec rt input existing false).2.1 = rt := by
  simp [post_exec]

lemma decDigitsAux_eq_digits : ∀ fuel n : Nat, n ≤ fuel → decDigitsAux fuel n = Nat.digits 10 n := by
  intro fuel
  induction fuel with
  | zero =>
    intro n hn
    have h0 : n = 0 := Nat.le_zero.mp hn
    subst h0
    simp [decDigitsAux]
  | succ fuel ih =>
    intro n hn
    by_cases h0 : n = 0
    · subst h0
      simp [decDigitsAux]
    · have h1 : 0 < n := Nat.pos_of_ne_zero h0
      have hdiv : n / 10 ≤ fuel := by
        have : n / 10 < n := Nat.div_lt_self h1 (by norm_num)
        omega
      simp only [decDigitsAux, if_neg h0]
      rw [ih (n / 10) hdiv, ← Nat.digits_def' (by norm_num : (1 : Nat) < 10) h1]

lemma decDigits_eq_digits (n : Nat) : decDigits n = Nat.digits 10 n :=
  decDigitsAux_eq_digits n n le_rfl

lemma digitChar_injOn10 : ∀ a < 10, ∀ b < 10, Nat.digitChar a = Nat.digitChar b → a = b := by
  decide

lemma map_digitChar_inj : ∀ l1 l2 : List Nat, (∀ x ∈ l1, x < 10) → (∀ x ∈ l2, x < 10) →
    l1.map Nat.digitChar = l2.map Nat.digitChar → l1 = l2 := by
  intro l1
  induction l1 with
  | nil =>
    intro l2 _ _ h
    cases l2 with
    | nil => rfl
    | cons b t => simp at h
  | cons a l ih =>
    intro l2 h1 h2 h
    cases l2 with
    | nil => simp at h
    | cons b t =>
      simp only [List.map_cons, List.cons.injEq] at h
      have hab : a = b :=
        digitChar_injOn10 a (h1 a (by simp)) b (h2 b (by simp)) h.1
      have hlt : l = t :=
        ih t (fun x hx => h1 x (by simp [hx])) (fun x hx => h2 x (by simp [hx])) h.2
      rw [hab, hlt]

lemma natDecimal_injective : Function.Injective natDecimal := by
  intro n m h
  unfold natDecimal at h
  by_cases hn : n = 0 <;> by_cases hm : m = 0
  · rw [hn, hm]
  · exfalso
    rw [if_pos hn, if_neg hm] at h
    have hd := congrArg String.data h
    have hd2 : (decDigits m).map Nat.digitChar = ['0'] := by
      have := congrArg List.reverse hd
      simpa using this.symm
    rw [decDigits_eq_digits] at hd2
    rcases hds : Nat.digits 10 m with _ | ⟨d, t⟩
    · rw [hds] at hd2
      simp at hd2
    · rw [hds] at hd2
      simp only [List.map_cons, List.cons.injEq] at hd2
      have hdlt : d < 10 :=
        Nat.digits_lt_base (by norm_num) (by rw [hds]; exact List.mem_cons_self _ _)
      have hd0 : d = 0 := digitChar_injOn10 d hdlt 0 (by norm_num) hd2.1
      have ht : t = [] := List.map_eq_nil_iff.mp hd2.2
      have hds0 : Nat.digits 10 m = [0] := by rw [hds, ht, hd0]
      have hm0 : m = 0 := by
        have hof := Nat.ofDigits_digits 10 m
        rw [hds0] at hof
        simpa using hof.symm
      exact hm hm0
  · exfalso
    rw [if_neg hn, if_pos hm] at h
    have hd := congrArg String.data h
    have hd2 : (decDigits n).map Nat.digitChar = ['0'] := by
      have := congrArg List.reverse hd
      simpa using this
    rw [decDigits_eq_digits] at hd2
    rcases hds : Nat.digits 10 n with _ | ⟨d, t⟩
    · rw [hds] at hd2
      simp at hd2
    · rw [hds] at hd2
      simp only [List.map_cons, List.cons.injEq] at hd2
      have hdlt : d < 10 :=
        Nat.digits_lt_base (by norm_num) (by rw [hds]; exact List.mem_cons_self _ _)
      have hd0 : d = 0 := digitChar_injOn10 d hdlt 0 (by norm_num) hd2.1
      have ht : t = [] := List.map_eq_nil_iff.mp hd2.2
      have hds0 : Nat.digits 10 n = [0] := by rw [hds, ht, hd0]
      have hn0 : n = 0 := by
        have hof := Nat.ofDigits_digits 10 n
        rw [hds0] at hof
        simpa using hof.symm
      exact hn hn0
  · rw [if_neg hn, if_neg hm] at h
    have hd := congrArg String.data h
    have hrev := congrArg List.reverse hd
    simp only [List.reverse_reverse] at hrev
    have hmap : (decDigits n).map Nat.digitChar = (decDigits m).map Nat.digitChar := hrev
    have hdig : decDigits n = decDigits m := by
      apply map_digitChar_inj
      · intro x hx
        rw [decDigits_eq_digits] at hx
        exact Nat.digits_lt_base (by norm_num) hx
      · intro x hx
        rw [decDigits_eq_digits] at hx
        exact Nat.digits_lt_base (by norm_num) hx
      · exact hmap
    rw [decDigits_eq_digits, decDigits_eq_digits] at hdig
    exact Nat.digits_inj_iff.mp hdig

lemma suffixName_injective (dir hex : String) : Function.Injective (suffixName dir hex) := by
  intro i j h
  apply natDecimal_injective
  have hd := congrArg String.data h
  simp only [suffixName, String.data_append] at hd
  exact String.ext (List.append_cancel_left (List.append_cancel_right hd))

lemma probeLoop_spec (existing : List String) (dir hex : String) :
    ∀ fuel i j : Nat, i ≤ j → j < i + fuel →
    (∀ k, i ≤ k → k < j → suffixName dir hex k ∈ existing) →
    suffixName dir hex j ∉ existing →
    probeLoop existing dir hex fuel i = some (suffixName dir hex j) := by
  intro fuel
  induction fuel with
  | zero =>
    intro i j hij hlt
    omega
  | succ fuel ih =>
    intro i j hij hlt hin hout
    simp only [probeLoop]
    by_cases hmem : suffixName dir hex i ∈ existing
    · rw [if_pos hmem]
      have hne : i ≠ j := fun he => hout (he ▸ hmem)
      exact ih (i + 1) j (by omega) (by omega) (fun k hk1 hk2 => hin k (by omega) hk2) hout
    · rw [if_neg hmem]
      have hji : j = i := by
        by_contra hne
        exact hmem (hin i le_rfl (by omega))
      rw [hji]

lemma le_length_of_below_mem (existing : List String) (dir hex : String) (j : Nat)
    (hbelow : ∀ k, k < j → suffixName dir hex k ∈ existing) : j ≤ existing.length := by
  have hnd : ((List.range j).map (suffixName dir hex)).Nodup :=
    (List.nodup_range j).map (suffixName_injective dir hex)
  have hsub : (List.range j).map (suffixName dir hex) ⊆ existing := by
    intro x hx
    obtain ⟨k, hk, rfl⟩ := List.mem_map.mp hx
    exact hbelow k (List.mem_range.mp hk)
  have := (List.subperm_of_subset hnd hsub).length_le
  simpa using this

lemma chooseFilename_eq (existing : List String) (dir hex : String) (j : Nat)
    (hbase : baseName dir hex ∈ existing)
    (hbelow : ∀ k, k < j → suffixName dir hex k ∈ existing)
    (hfree : suffixName dir hex j ∉ existing) :
    chooseFilename existing dir hex = some (suffixName dir hex j) := by
  unfold chooseFilename
  rw [if_pos hbase]
  have hj : j ≤ existing.length := le_length_of_below_mem existing dir hex j hbelow
  exact probeLoop_spec existing dir hex (existing.length + 1) 0 j (Nat.zero_le j) (by omega)
    (fun k _ hk => hbelow k hk) hfree

/-- C2: when the base name `<hex>.drcov` already exists, the chosen name
is the first `<hex>_i.drcov` in increasing order of `i` that does not yet
exist; and once that file is created, a second execution with the same
fingerprint picks a name with a strictly larger, hence different,
suffix. -/
theorem chooseFilename_first_gap (existing : List String) (dir hex : String) (j : Nat)
    (hbase : baseName dir hex ∈ existing)
    (hbelow : ∀ k, k < j → suffixName dir hex k ∈ existing)
    (hfree : suffixName dir hex j ∉ existing) :
    chooseFilename existing dir hex = some (suffixName dir hex j) ∧
    (∀ j', (∀ k, k < j' → suffixName dir hex k ∈ suffixName dir hex j :: existing) →
      suffixName dir hex j' ∉ suffixName dir hex j :: existing →
      chooseFilename (suffixName dir hex j :: existing) dir hex =
          some (suffixName dir hex j') ∧
        j < j' ∧ suffixName dir hex j' ≠ suffixName dir hex j) := by
  refine ⟨chooseFilename_eq existing dir hex j hbase hbelow hfree, ?hsecond⟩
  intro j' hbelow2 hfree2
  have hjlt : j < j' := by
    rcases Nat.lt_trichotomy j j' with h | h | h
    · exact h
    · exact absurd (by rw [← h]; exact List.mem_cons_self _ _) hfree2
    · exact absurd (List.mem_cons_of_mem _ (hbelow j' h)) hfree2
  have hbase2 : baseName dir hex ∈ suffixName dir hex j :: existing :=
    List.mem_cons_of_mem _ hbase
  refine ⟨chooseFilename_eq _ dir hex j' hbase2 hbelow2 hfree2, hjlt, ?hdistinct⟩
  intro he
  exact (Nat.ne_of_lt hjlt).symm (suffixName_injective dir hex he)

/-- Witness for C2 on a concrete directory state: the base name and the
`_0` name exist, so the `_1` name is chosen. -/
theorem chooseFilename_first_gap_witness :
    chooseFilename [baseName "cov" "h", suffixName "cov" "h" 0] "cov" "h" =
      some (suffixName "cov" "h" 1) :=
  (chooseFilename_first_gap [baseName "cov" "h", suffixName "cov" "h" 0] "cov" "h" 1
    (by decide) (by decide) (by decide)).1

/-- The sixteen characters a lowercase hexadecimal rendering may use. -/
def hexChars : List Char :=
  "0123456789abcdef".data

lemma hexDigitsLE_length : ∀ w n : Nat, (hexDigitsLE w n).length = w := by
  intro w
  induction w with
  | zero => intro n; rfl
  | succ w ih =>
    intro n
    simp [hexDigitsLE, ih]

lemma hexDigitsLE_lt : ∀ w n : Nat, ∀ d ∈ hexDigitsLE w n, d < 16 := by
  intro w
  induction w with
  | zero =>
    intro n d hd
    simp [hexDigitsLE] at hd
  | succ w ih =>
    intro n d hd
    rcases List.mem_cons.mp hd with h | h
    · rw [h]
      exact Nat.mod_lt _ (by norm_num)
    · exact ih (n / 16) d h

lemma digitChar_mem_hexChars : ∀ d < 16, Nat.digitChar d ∈ hexChars := by
  decide

lemma mod_pow16_succ (n w : Nat) :
    n % 16 ^ (w + 1) = n % 16 + 16 * (n / 16 % 16 ^ w) := by
  have hpow : (0 : Nat) < 16 ^ w := pow_pos (by norm_num) w
  have hpow1 : (16 : Nat) ^ (w + 1) = 16 * 16 ^ w := by ring
  have hsplit : n = 16 * (n / 16) + n % 16 := (Nat.div_add_mod n 16).symm
  rw [hpow1]
  conv_lhs => rw [hsplit]
  rw [Nat.add_mod, Nat.mul_mod_mul_left]
  have hr16 : n % 16 < 16 := Nat.mod_lt _ (by norm_num)
  have hq : n / 16 % 16 ^ w < 16 ^ w := Nat.mod_lt _ hpow
  have hr : n % 16 % (16 * 16 ^ w) = n % 16 := Nat.mod_eq_of_lt (by omega)
  rw [hr, Nat.mod_eq_of_lt (by omega)]
  omega

lemma ofDigits_hexDigitsLE : ∀ w n : Nat, Nat.ofDigits 16 (hexDigitsLE w n) = n % 16 ^ w := by
  intro w
  induction w with
  | zero =>
    intro n
    simp [hexDigitsLE, Nat.mod_one]
  | succ w ih =>
    intro n
    simp only [hexDigitsLE, Nat.ofDigits_cons, ih, Nat.cast_id]
    exact (mod_pow16_succ n w).symm

lemma toHex16_length (n : Nat) : (toHex16 n).length = 16 := by
  simp [toHex16, String.length, hexDigitsLE_length]

lemma toHex16_chars (n : Nat) : ∀ c ∈ (toHex16 n).data, c ∈ hexChars := by
  intro c hc
  simp only [toHex16, List.mem_reverse, List.mem_map] at hc
  obtain ⟨d, hd, rfl⟩ := hc
  exact digitChar_mem_hexChars d (hexDigitsLE_lt 16 n d hd)

/-- C9 is false on the code: the chosen extension is `.drcov`, not
`.trace`.  Concrete counterexample: the empty input on a fresh runtime
produces `./coverage/0000000000000000.drcov`, which differs from the
`.trace` name the claim prescribes. -/
theorem post_exec_filename_not_trace :
    (post_exec DrCovRuntime.new [] [] true).2.2.path ≠
      "./coverage" ++ "/" ++ toHex16 (fingerprint []) ++ ".trace" := by
  decide

/-- C9 amended: the base candidate filename is the fingerprint formatted
as exactly sixteen zero-padded lowercase hexadecimal digits followed by
the extension `.drcov`, inside the coverage directory: the hex field has
length sixteen, uses only lowercase hexadecimal characters, and its digit
values read back (base 16) as the fingerprint itself. -/
theorem post_exec_filename_format (rt : DrCovRuntime) (input : List Nat) (ok : Bool) :
    (post_exec rt input [] ok).2.2.path =
      rt.coverage_directory ++ "/" ++ toHex16 (fingerprint input) ++ ".drcov" ∧
    (toHex16 (fingerprint input)).length = 16 ∧
    (∀ c ∈ (toHex16 (fingerprint input)).data, c ∈ hexChars) ∧
    Nat.ofDigits 16 (hexDigitsLE 16 (fingerprint input)) = fingerprint input := by
  refine ⟨?hpath, toHex16_length _, toHex16_chars _, ?hval⟩
  · cases ok <;> simp [post_exec, chooseFilename, baseName]
  · rw [ofDigits_hexDigitsLE]
    exact Nat.mod_eq_of_lt (lt_of_lt_of_eq (fingerprint_lt input) (by norm_num [U64]))

/-- Witness for the amended C9 on a fresh runtime and the empty input. -/
theorem post_exec_filename_format_witness :
    (post_exec DrCovRuntime.new [] [] true).2.2.path =
      "./coverage" ++ "/" ++ toHex16 (fingerprint []) ++ ".drcov" ∧
    (toHex16 (fingerprint [])).length = 16 :=
  ⟨(post_exec_filename_format DrCovRuntime.new [] true).1,
    (post_exec_filename_format DrCovRuntime.new [] true).2.1⟩

end DrCovRt
